import Mathlib

/-!
Verification of the sudoku engine in `src/script.js`.

The grid is the JS 81-cell array of numbers (`0` = empty); we model it as a
`List Nat`, and the JS read `g[i]` as `List.getD g i 0`.  The functions
`findEmpty`, `valid`, `backtrack`, `solve`, `generateSolved`, `makePuzzle`,
`updateConflicts` and the play-session event handlers are translated below,
each next to a doc comment naming the source function.
-/

namespace Sudoku

/-- `Grid`: the 81-cell numeric array (`0` = empty). -/
abbrev Grid := List Nat

/-- `row = Math.floor(index / 9)` (script.js uses this mapping throughout). -/
def rowOf (i : Nat) : Nat := i / 9

/-- `col = index % 9`. -/
def colOf (i : Nat) : Nat := i % 9

/-- `block = Math.floor(row/3)*3 + Math.floor(col/3)`. -/
def blockOf (i : Nat) : Nat := (i / 9 / 3) * 3 + (i % 9 / 3)

/-- Two indices share a row, a column, or a 3×3 block. -/
def sameUnit (i j : Nat) : Prop :=
  rowOf i = rowOf j ∨ colOf i = colOf j ∨ blockOf i = blockOf j

instance (i j : Nat) : Decidable (sameUnit i j) := by
  unfold sameUnit; infer_instance

/-- The standard reference solution used as the spec's concrete scenario. -/
def refSol : Grid :=
  [5,3,4,6,7,8,9,1,2,
   6,7,2,1,9,5,3,4,8,
   1,9,8,3,4,2,5,6,7,
   8,5,9,7,6,1,4,2,3,
   4,2,6,8,5,3,7,9,1,
   7,1,3,9,2,4,8,5,6,
   9,6,1,5,3,7,2,8,4,
   2,8,7,4,1,9,6,3,5,
   3,4,5,2,8,6,1,7,9]

/-! ## The backtracking solver (`solve`, script.js lines 133–155) -/

/-- `findEmpty()` inside `solve`: the first index `i < 81` with `g[i] === 0`
(`-1`, i.e. `none`, when there is none). -/
def findEmpty (g : Grid) : Option Nat :=
  (List.range 81).find? (fun i => g.getD i 0 == 0)

/-- `valid(pos, val)` inside `solve`: scans the row and column of `pos`
(`g[r*9+i]`, `g[i*9+c]` for `i = 0..8`) and the 3×3 block
(`g[rr*9+cc]` for `rr`, `cc` over the block), returning `false` on any hit.
Note the scans do not exclude `pos` itself. -/
def valid (g : Grid) (pos val : Nat) : Bool :=
  let r := pos / 9
  let c := pos % 9
  let br := r / 3
  let bc := c / 3
  ((List.range 9).all fun i =>
      !(g.getD (r * 9 + i) 0 == val) && !(g.getD (i * 9 + c) 0 == val)) &&
  ((List.range' (br * 3) 3).all fun rr =>
    (List.range' (bc * 3) 3).all fun cc => !(g.getD (rr * 9 + cc) 0 == val))

/-- The candidate loop `for (let n = 1; n <= 9; n++)` of `backtrack`:
try each `n` in order, place it if `valid`, recurse (`f`), and on failure
continue with the next candidate (the JS write-back `g[pos] = 0` is the
pure model's unchanged `g`). -/
def tryCands (f : Grid → Option Grid) (g : Grid) (pos : Nat) : List Nat → Option Grid
  | [] => none
  | n :: ns =>
    if valid g pos n then
      match f (g.set pos n) with
      | some r => some r
      | none => tryCands f g pos ns
    else tryCands f g pos ns

/-- `backtrack()` inside `solve`.  The JS recursion terminates because every
recursive call fills one empty cell; the model makes that measure explicit as
`fuel`, which `solve` instantiates large enough that the `0` branch is never
reached. -/
def backtrack : Nat → Grid → Option Grid
  | 0, _ => none
  | fuel + 1, g =>
    match findEmpty g with
    | none => some g
    | some pos => tryCands (fun g' => backtrack fuel g') g pos [1,2,3,4,5,6,7,8,9]

/-- The number of empty cells, the JS recursion's decreasing measure. -/
def countZ (g : Grid) : Nat := g.count 0

/-- `solve(grid)`: runs `backtrack` on a copy and returns the completed grid,
or `null` (`none`) when the search fails. -/
def solve (grid : Grid) : Option Grid := backtrack (countZ grid + 1) grid

/-- A grid whose non-zero cells are free of row/column/block duplicates. -/
def okGrid (g : Grid) : Prop :=
  ∀ i, i < 81 → ∀ j, j < 81 → i ≠ j → sameUnit i j →
    g.getD i 0 ≠ 0 → g.getD i 0 ≠ g.getD j 0

instance (g : Grid) : Decidable (okGrid g) := by
  unfold okGrid
  exact Nat.decidableBallLT _ _

/-! ## The conflict detector (`updateConflicts`, script.js lines 189–204) -/

/-- The body of `updateConflicts` for one cell `i`: skip when `state[i]` is
`0`; otherwise the cell is marked in conflict when some other cell of its
row (`r*9+j`), column (`j*9+c`) or block (`rr*9+cc`) — each guarded by
`!== i` — holds the same value. -/
def hasConflictAt (state : Grid) (i : Nat) : Bool :=
  let val := state.getD i 0
  if val == 0 then false
  else
    let r := i / 9
    let c := i % 9
    let br := r / 3
    let bc := c / 3
    (((List.range 9).any fun j =>
        (!(r * 9 + j == i) && (state.getD (r * 9 + j) 0 == val)) ||
        (!(j * 9 + c == i) && (state.getD (j * 9 + c) 0 == val))) ||
     ((List.range' (br * 3) 3).any fun rr =>
       (List.range' (bc * 3) 3).any fun cc =>
         !(rr * 9 + cc == i) && (state.getD (rr * 9 + cc) 0 == val)))

/-- `updateConflicts(state)` as a set of indices: the cells of `0..80` that
end up carrying the `conflict` mark. -/
def conflicts (state : Grid) : List Nat :=
  (List.range 81).filter (hasConflictAt state)

/-- A play state with the value `5` duplicated across cells 0 and 1 of row 0
(used as a concrete input below). -/
def cgrid : Grid := ((List.replicate 81 0).set 0 5).set 1 5

/-! ## The puzzle carver (`makePuzzle`, script.js lines 158–171) -/

/-- The `for (const idx of order)` loop of `makePuzzle`: while fewer than
`removals` cells have been removed, tentatively zero the next index; if
`solve` fails the backup value is restored (the pure model keeps the
previous `puzzle`), otherwise the removal is kept and counted. -/
def makePuzzleLoop (removals : Nat) : List Nat → Grid → Nat → Grid
  | [], puzzle, _ => puzzle
  | idx :: rest, puzzle, removed =>
    if removals ≤ removed then puzzle
    else
      match solve (puzzle.set idx 0) with
      | none => makePuzzleLoop removals rest puzzle removed
      | some _ => makePuzzleLoop removals rest (puzzle.set idx 0) (removed + 1)

/-- `makePuzzle(solved, removals)`: copies the solved grid and runs the
removal loop over `order`, the outcome of `shuffle` on `[0..80]` (kept as a
parameter so every randomized order is covered). -/
def makePuzzle (solved : Grid) (removals : Nat) (order : List Nat) : Grid :=
  makePuzzleLoop removals order solved 0

/-! ## The solved-grid generator (`generateSolved`, script.js lines 108–130) -/

/-- The generator's mutable state: the grid plus the `rows`, `cols` and
`blocks` arrays of JS `Set`s. -/
structure GenState where
  grid : Grid
  rows : List (Finset Nat)
  cols : List (Finset Nat)
  blocks : List (Finset Nat)

/-- `blockIndex(r, c)` inside `generateSolved`. -/
def blockIndex (r c : Nat) : Nat := r / 3 * 3 + c / 3

/-- The generator's starting state: all-zero grid, nine empty sets each. -/
def genInit : GenState :=
  ⟨List.replicate 81 0, List.replicate 9 ∅, List.replicate 9 ∅, List.replicate 9 ∅⟩

/-- The candidate test
`rows[r].has(n) || cols[c].has(n) || blocks[blockIndex(r, c)].has(n)`. -/
def genBlocked (st : GenState) (pos n : Nat) : Bool :=
  let r := pos / 9
  let c := pos % 9
  decide (n ∈ st.rows.getD r ∅) || decide (n ∈ st.cols.getD c ∅) ||
    decide (n ∈ st.blocks.getD (blockIndex r c) ∅)

/-- The placement `grid[pos] = n` with the three set insertions. -/
def stAdd (st : GenState) (pos n : Nat) : GenState :=
  let r := pos / 9
  let c := pos % 9
  ⟨st.grid.set pos n,
   st.rows.set r (insert n (st.rows.getD r ∅)),
   st.cols.set c (insert n (st.cols.getD c ∅)),
   st.blocks.set (blockIndex r c) (insert n (st.blocks.getD (blockIndex r c) ∅))⟩

mutual
/-- `place(pos)` inside `generateSolved`.  `rand k` is the outcome of the
`k`-th `shuffle([1..9])` call (the call counter `k` is threaded through the
search in execution order); `fuel` makes the structurally decreasing depth
explicit, and `generateSolved` supplies enough for the `0` branch to be
unreachable.  A failed branch returns the untouched state by purity, the
JS undo `grid[pos] = 0` plus set deletions. -/
def placeG (rand : Nat → List Nat) : Nat → Nat → Nat → GenState → Option Grid × Nat
  | 0, k, _, _ => (none, k)
  | fuel + 1, k, pos, st =>
    if pos = 81 then (some st.grid, k)
    else tryNums rand fuel (rand k) (k + 1) pos st
termination_by fuel _ _ _ => (fuel, 0)

/-- The `for (const n of nums)` loop of `place`: skip a blocked candidate,
otherwise place it and recurse; on failure continue with the rest. -/
def tryNums (rand : Nat → List Nat) (fuel : Nat) :
    List Nat → Nat → Nat → GenState → Option Grid × Nat
  | [], k, _, _ => (none, k)
  | n :: ns, k, pos, st =>
    if genBlocked st pos n then tryNums rand fuel ns k pos st
    else
      match placeG rand fuel k (pos + 1) (stAdd st pos n) with
      | (some g, k2) => (some g, k2)
      | (none, k2) => tryNums rand fuel ns k2 pos st
termination_by ns _ _ _ => (fuel, ns.length + 1)
end

/-- `generateSolved()`: `place(0)` from the empty state; the returned grid
is the filled one on success and the untouched all-zero grid when the
search fails (the JS return value of `place` is ignored). -/
def generateSolved (rand : Nat → List Nat) : Grid :=
  match placeG rand 82 0 0 genInit with
  | (some g, _) => g
  | (none, _) => List.replicate 81 0

/-- The values of row `r`, left to right. -/
def rowVals (g : Grid) (r : Nat) : List Nat :=
  (List.range 9).map fun c => g.getD (r * 9 + c) 0

/-- The values of column `c`, top to bottom. -/
def colVals (g : Grid) (c : Nat) : List Nat :=
  (List.range 9).map fun r => g.getD (r * 9 + c) 0

/-- The values of block `b`, row-major. -/
def blockVals (g : Grid) (b : Nat) : List Nat :=
  (List.range 9).map fun t =>
    g.getD ((b / 3 * 3 + t / 3) * 9 + (b % 3 * 3 + t % 3)) 0

/-- A completely filled, duplicate-free grid. -/
def solvedGrid (g : Grid) : Prop :=
  g.length = 81 ∧ (∀ i, i < 81 → 1 ≤ g.getD i 0 ∧ g.getD i 0 ≤ 9) ∧ okGrid g

/-- The generator-state invariant at scan position `pos`. -/
structure GenOK (st : GenState) (pos : Nat) : Prop where
  glen : st.grid.length = 81
  rlen : st.rows.length = 9
  clen : st.cols.length = 9
  blen : st.blocks.length = 9
  zero : ∀ i, pos ≤ i → st.grid.getD i 0 = 0
  filled : ∀ i, i < pos → 1 ≤ st.grid.getD i 0 ∧ st.grid.getD i 0 ≤ 9
  distinct : ∀ i j, i < pos → j < pos → i ≠ j → sameUnit i j →
    st.grid.getD i 0 ≠ st.grid.getD j 0
  blocked : ∀ q m, q < 81 →
    (genBlocked st q m = true ↔
      ∃ i, i < pos ∧ sameUnit i q ∧ st.grid.getD i 0 = m)

/-! ## The play session (script.js lines 17–31, 56–79, 210–215, 227–296) -/

/-- The mutable play state of script.js: the answer key `solution`, the
visible `state`, the `prefilled` mask, the `mistakes` counter, the `history`
stack (most recent entry first, an entry being `(idx, prev)`), and the
status line `statusMsg.textContent`. -/
structure Session where
  solution : Grid
  state : Grid
  prefilled : List Bool
  mistakes : Nat
  history : List (Nat × Nat)
  statusMsg : String

/-- The condition of `checkWin()`:
`state.every((v, i) => v !== 0 && v === solution[i])`. -/
def isSolvedB (s : Session) : Bool :=
  (List.range s.state.length).all fun i =>
    !(s.state.getD i 0 == 0) && (s.state.getD i 0 == s.solution.getD i 0)

/-- `checkWin()`: on a complete correct grid it posts the win message (and
stops the display timer, which the model omits). -/
def checkWin (s : Session) : Session :=
  if isSolvedB s then { s with statusMsg := "Puzzle complete - well done!" } else s

/-- The cell `input` event handler (lines 56–69): a locked cell is restored
and nothing else happens; otherwise the history entry is pushed only when
the value changed, the cell is written, and a wrong non-zero value counts a
mistake; `checkWin` runs last. -/
def inputSet (s : Session) (idx num : Nat) : Session :=
  if s.prefilled.getD idx false then s
  else
    let prev := s.state.getD idx 0
    let s1 : Session :=
      { s with
        history := if prev ≠ num then (idx, prev) :: s.history else s.history
        state := s.state.set idx num }
    let s2 : Session :=
      if num ≠ 0 ∧ s.solution.getD idx 0 ≠ num then
        { s1 with mistakes := s1.mistakes + 1, statusMsg := "Wrong number" }
      else { s1 with statusMsg := "" }
    checkWin s2

/-- The `keydown` Backspace/Delete handler (lines 72–79): on a free cell it
pushes a history entry unconditionally and clears the cell (no mistake
bookkeeping, no `checkWin`). -/
def backspaceClear (s : Session) (idx : Nat) : Session :=
  if s.prefilled.getD idx false then s
  else
    { s with
      history := (idx, s.state.getD idx 0) :: s.history
      state := s.state.set idx 0 }

/-- The numpad click handler (lines 265–275), after a cell `idx` has been
selected: a locked cell only reports, otherwise a history entry is pushed
unconditionally, the digit `n` is written, a wrong value counts a mistake,
and `checkWin` runs. -/
def numpadSet (s : Session) (idx n : Nat) : Session :=
  if s.prefilled.getD idx false then { s with statusMsg := "Cell is locked" }
  else
    let s1 : Session :=
      { s with
        history := (idx, s.state.getD idx 0) :: s.history
        state := s.state.set idx n }
    let s2 : Session :=
      if s.solution.getD idx 0 ≠ n then
        { s1 with mistakes := s1.mistakes + 1, statusMsg := "Wrong number" }
      else { s1 with statusMsg := "" }
    checkWin s2

/-- The window `keydown` digit handler (lines 288–293) for a selected cell:
pushes unconditionally, writes the digit, counts a wrong value, `checkWin`. -/
def keySet (s : Session) (idx n : Nat) : Session :=
  if s.prefilled.getD idx false then s
  else
    let s1 : Session :=
      { s with
        history := (idx, s.state.getD idx 0) :: s.history
        state := s.state.set idx n }
    let s2 : Session :=
      if s.solution.getD idx 0 ≠ n then { s1 with mistakes := s1.mistakes + 1 }
      else s1
    checkWin s2

/-- `undo()` (lines 259–262): pop the most recent entry and restore it, or
report "Nothing to undo" and change nothing. -/
def undo (s : Session) : Session :=
  match s.history with
  | [] => { s with statusMsg := "Nothing to undo" }
  | (idx, prev) :: rest =>
    { s with state := s.state.set idx prev, history := rest, statusMsg := "Undo" }

/-- The hint pool of `giveHint()` (lines 247–250): every index whose cell is
empty or differs from the solution. -/
def incorrectList (s : Session) : List Nat :=
  (List.range 81).filter fun i =>
    (s.state.getD i 0 == 0) || !(s.state.getD i 0 == s.solution.getD i 0)

/-- The pool entry `incorrect[Math.floor(Math.random() * incorrect.length)]`;
`pick` models the randomness through the chosen position `pick % length`. -/
def hintIdx (s : Session) (pick : Nat) : Nat :=
  (incorrectList s).getD (pick % (incorrectList s).length) 0

/-- `giveHint()` (lines 245–257): with an empty pool (`length === 0`) it
only reports; otherwise it picks a pool entry, pushes a history entry,
writes the solution value, unlocks the cell (`prefilled[idx] = false`), and
runs `checkWin` before posting "Hint revealed". -/
def giveHint (s : Session) (pick : Nat) : Session :=
  if (incorrectList s).length = 0 then
    { s with statusMsg := "No hints - puzzle seems complete" }
  else
    let idx := hintIdx s pick
    let s1 : Session :=
      { s with
        history := (idx, s.state.getD idx 0) :: s.history
        state := s.state.set idx (s.solution.getD idx 0)
        prefilled := s.prefilled.set idx false }
    { checkWin s1 with statusMsg := "Hint revealed" }

/-- `newPuzzle()` (lines 227–239), with the generated solved grid and the
carver's shuffle outcome as parameters: the carved puzzle becomes `state`,
its non-zero cells become the `prefilled` mask, and history and mistakes
are reset. -/
def newPuzzle (solved : Grid) (removals : Nat) (order : List Nat) : Session :=
  let puzzle := makePuzzle solved removals order
  { solution := solved
    state := puzzle
    prefilled := puzzle.map (fun v => v != 0)
    mistakes := 0
    history := []
    statusMsg := "New puzzle - good luck!" }

/-- One player action: each constructor is one of the script's edit paths. -/
inductive Op where
  | input (idx num : Nat)
  | numpad (idx n : Nat)
  | key (idx n : Nat)
  | clear (idx : Nat)
  | hint (pick : Nat)
  | undoOp

/-- Dispatch one action to its handler. -/
def step (s : Session) : Op → Session
  | .input idx num => inputSet s idx num
  | .numpad idx n => numpadSet s idx n
  | .key idx n => keySet s idx n
  | .clear idx => backspaceClear s idx
  | .hint pick => giveHint s pick
  | .undoOp => undo s

/-- A whole play: the actions applied in order. -/
def run (s : Session) (ops : List Op) : Session := ops.foldl step s

/-- The C5 invariant: a still-locked cell shows the solution value, and no
history entry targets it. -/
def GivenInv (s : Session) : Prop :=
  ∀ i, s.prefilled.getD i false = true →
    s.state.getD i 0 = s.solution.getD i 0 ∧ ∀ e ∈ s.history, e.1 ≠ i

/-- A concrete free-play state: solution `refSol`, a `3` typed at cell 0,
nothing prefilled, empty history. -/
def csess : Session :=
  ⟨refSol, (List.replicate 81 0).set 0 3, List.replicate 81 false, 0, [], ""⟩

/-- A concrete state whose history holds an older edit `(0, 1)` of cell 0,
which currently shows `2`. -/
def csess7 : Session :=
  ⟨refSol, (List.replicate 81 0).set 0 2, List.replicate 81 false, 0, [(0, 1)], ""⟩

/-- A play state solved except for one empty cell 0 (solution `refSol`). -/
def csess9 : Session := ⟨refSol, refSol.set 0 0, List.replicate 81 false, 0, [], ""⟩

theorem sameUnit_symm {i j : Nat} (h : sameUnit i j) : sameUnit j i := by
  unfold sameUnit at *
  rcases h with h | h | h
  · exact Or.inl h.symm
  · exact Or.inr (Or.inl h.symm)
  · exact Or.inr (Or.inr h.symm)

theorem getD_set_ne {α : Type} (l : List α) {i j : Nat} (a d : α) (h : i ≠ j) :
    (l.set i a).getD j d = l.getD j d := by
  simp [List.getD_eq_getElem?_getD, List.getElem?_set_ne h]

theorem getD_set_self {α : Type} (l : List α) {i : Nat} (a d : α) (h : i < l.length) :
    (l.set i a).getD i d = a := by
  simp [List.getD_eq_getElem?_getD, List.getElem?_set_self, h]

/-- `valid` succeeds exactly when `val` is absent from the whole row, column
and block of `pos` — the scan includes `pos` itself. -/
theorem valid_eq_true_iff (g : Grid) (pos val : Nat) (hpos : pos < 81) :
    valid g pos val = true ↔ ∀ j, j < 81 → sameUnit pos j → g.getD j 0 ≠ val := by
  unfold valid
  simp only [Bool.and_eq_true, List.all_eq_true, List.mem_range, List.mem_range'_1,
    Bool.not_eq_true', beq_eq_false_iff_ne, ne_eq]
  constructor
  · rintro ⟨hrc, hblk⟩ j hj hsame hval
    rcases hsame with hr | hc | hb
    · have h1 := (hrc (j % 9) (Nat.mod_lt _ (by norm_num))).1
      unfold rowOf at hr
      have h2 : pos / 9 * 9 + j % 9 = j := by omega
      rw [h2] at h1
      exact h1 hval
    · have h1 := (hrc (j / 9) (by omega)).2
      unfold colOf at hc
      have h2 : j / 9 * 9 + pos % 9 = j := by omega
      rw [h2] at h1
      exact h1 hval
    · unfold blockOf at hb
      have hjm : j % 9 < 9 := Nat.mod_lt _ (by norm_num)
      have h3 := hblk (j / 9) ⟨by omega, by omega⟩ (j % 9) ⟨by omega, by omega⟩
      have h2 : j / 9 * 9 + j % 9 = j := by omega
      rw [h2] at h3
      exact h3 hval
  · intro h
    refine ⟨fun i hi => ⟨fun hval => ?_, fun hval => ?_⟩, fun rr hrr cc hcc hval => ?_⟩
    · exact h (pos / 9 * 9 + i) (by omega) (Or.inl (by unfold rowOf; omega)) hval
    · exact h (i * 9 + pos % 9) (by omega) (Or.inr (Or.inl (by unfold colOf; omega))) hval
    · exact h (rr * 9 + cc) (by omega)
        (Or.inr (Or.inr (by unfold blockOf; omega))) hval

theorem valid_eq_false_iff (g : Grid) (pos val : Nat) (hpos : pos < 81) :
    valid g pos val = false ↔ ∃ j, j < 81 ∧ sameUnit pos j ∧ g.getD j 0 = val := by
  have h := valid_eq_true_iff g pos val hpos
  constructor
  · intro hf
    by_contra hc
    push_neg at hc
    rw [h.mpr (fun j hj hs => hc j hj hs)] at hf
    cases hf
  · rintro ⟨j, hj, hs, hval⟩
    cases hv : valid g pos val
    · rfl
    · exact absurd hval (h.mp hv j hj hs)

theorem findEmpty_eq_none_iff (g : Grid) :
    findEmpty g = none ↔ ∀ i, i < 81 → g.getD i 0 ≠ 0 := by
  unfold findEmpty
  simp [List.find?_eq_none]

theorem findEmpty_eq_some (g : Grid) (pos : Nat) (h : findEmpty g = some pos) :
    pos < 81 ∧ g.getD pos 0 = 0 := by
  unfold findEmpty at h
  have h1 := List.find?_some h
  have h2 := List.mem_of_find?_eq_some h
  simp at h1 h2
  refine ⟨h2, ?_⟩
  rw [List.getD_eq_getElem?_getD]
  exact h1

/-- Inversion for the candidate loop: a success comes from some candidate in
the list that passed `valid` and whose recursive call succeeded. -/
theorem tryCands_eq_some {f : Grid → Option Grid} {g : Grid} {pos : Nat}
    {ns : List Nat} {g' : Grid} (h : tryCands f g pos ns = some g') :
    ∃ n ∈ ns, valid g pos n = true ∧ f (g.set pos n) = some g' := by
  induction ns with
  | nil => simp [tryCands] at h
  | cons n ns ih =>
    unfold tryCands at h
    by_cases hv : valid g pos n = true
    · rw [if_pos hv] at h
      cases hf : f (g.set pos n) with
      | some r =>
        rw [hf] at h
        cases h
        exact ⟨n, List.mem_cons_self _ _, hv, hf⟩
      | none =>
        rw [hf] at h
        obtain ⟨m, hm, h1, h2⟩ := ih h
        exact ⟨m, List.mem_cons_of_mem _ hm, h1, h2⟩
    · rw [if_neg hv] at h
      obtain ⟨m, hm, h1, h2⟩ := ih h
      exact ⟨m, List.mem_cons_of_mem _ hm, h1, h2⟩

/-- The main soundness invariants of `backtrack`: a returned grid has the
input's length, preserves every non-zero input cell verbatim, leaves no cell
empty, fills originally-empty cells with `1..9`, and any same-unit duplicate
in the result already stood (as two non-zero cells) in the input. -/
theorem backtrack_some_spec : ∀ fuel (g g' : Grid), g.length = 81 →
    backtrack fuel g = some g' →
    g'.length = 81 ∧
    (∀ i, g.getD i 0 ≠ 0 → g'.getD i 0 = g.getD i 0) ∧
    (∀ i, i < 81 → g'.getD i 0 ≠ 0) ∧
    (∀ i, i < 81 → g.getD i 0 = 0 → 1 ≤ g'.getD i 0 ∧ g'.getD i 0 ≤ 9) ∧
    (∀ i j, i < 81 → j < 81 → i ≠ j → sameUnit i j →
      g'.getD i 0 = g'.getD j 0 → g.getD i 0 ≠ 0 ∧ g.getD j 0 ≠ 0) := by
  intro fuel
  induction fuel with
  | zero => intro g g' _ h; simp [backtrack] at h
  | succ fuel ih =>
    intro g g' hg h
    unfold backtrack at h
    cases hfe : findEmpty g with
    | none =>
      rw [hfe] at h
      cases h
      have hfull := (findEmpty_eq_none_iff g).mp hfe
      refine ⟨hg, fun i _ => rfl, hfull, fun i hi h0 => absurd h0 (hfull i hi), ?_⟩
      intro i j hi hj _ _ _
      exact ⟨hfull i hi, hfull j hj⟩
    | some pos =>
      rw [hfe] at h
      obtain ⟨hpos, hg0⟩ := findEmpty_eq_some g pos hfe
      obtain ⟨n, hn, hv, hbt⟩ := tryCands_eq_some h
      have hn19 : 1 ≤ n ∧ n ≤ 9 := by
        simp at hn
        omega
      have hposlen : pos < g.length := by omega
      have hg1 : (g.set pos n).length = 81 := by simp [hg]
      obtain ⟨hA, hB, hC, hE, hD⟩ := ih (g.set pos n) g' hg1 hbt
      have hset_self : (g.set pos n).getD pos 0 = n := getD_set_self g n 0 hposlen
      have hvalid := (valid_eq_true_iff g pos n hpos).mp hv
      refine ⟨hA, ?_, hC, ?_, ?_⟩
      · -- preservation of non-zero cells
        intro i hi0
        have hne : pos ≠ i := fun he => hi0 (he ▸ hg0)
        have h1 : (g.set pos n).getD i 0 = g.getD i 0 := getD_set_ne g n 0 hne
        rw [hB i (h1 ▸ hi0), h1]
      · -- originally-empty cells end in 1..9
        intro i hi h0
        by_cases hip : i = pos
        · have hgp : g'.getD pos 0 = n := by
            rw [hB pos (by rw [hset_self]; omega), hset_self]
          rw [hip, hgp]
          omega
        · have h1 : (g.set pos n).getD i 0 = g.getD i 0 :=
            getD_set_ne g n 0 (fun he => hip he.symm)
          exact hE i hi (h1 ▸ h0)
      · -- duplicate heritage
        intro i j hi hj hij hsame heq
        obtain ⟨h1, h2⟩ := hD i j hi hj hij hsame heq
        have hgp : g'.getD pos 0 = n := by
          rw [hB pos (by rw [hset_self]; omega), hset_self]
        by_cases hip : i = pos
        · exfalso
          have hj1 : (g.set pos n).getD j 0 = g.getD j 0 :=
            getD_set_ne g n 0 (hip ▸ hij)
          have hgi : g'.getD i 0 = n := by rw [hip, hgp]
          have hgj : g'.getD j 0 = g.getD j 0 := by rw [hB j h2, hj1]
          exact hvalid j hj (hip ▸ hsame) (by rw [← hgj, ← heq, hgi])
        · by_cases hjp : j = pos
          · exfalso
            have hi1 : (g.set pos n).getD i 0 = g.getD i 0 :=
              getD_set_ne g n 0 (fun he => hip he.symm)
            have hgj : g'.getD j 0 = n := by rw [hjp, hgp]
            have hgi : g'.getD i 0 = g.getD i 0 := by rw [hB i h1, hi1]
            exact hvalid i hi (sameUnit_symm (hjp ▸ hsame)) (by rw [← hgi, heq, hgj])
          · have hi1 : (g.set pos n).getD i 0 = g.getD i 0 :=
              getD_set_ne g n 0 (fun he => hip he.symm)
            have hj1 : (g.set pos n).getD j 0 = g.getD j 0 :=
              getD_set_ne g n 0 (fun he => hjp he.symm)
            exact ⟨hi1 ▸ h1, hj1 ▸ h2⟩

set_option maxRecDepth 40000 in
/-- The reference solution's non-zero cells are free of unit duplicates. -/
theorem okGrid_refSol : okGrid refSol := by decide

/-- One cell of `updateConflicts` is marked exactly when the cell is
non-empty and some other cell of its row, column or block carries the same
value. -/
theorem hasConflictAt_eq_true_iff (g : Grid) (i : Nat) (hi : i < 81) :
    hasConflictAt g i = true ↔
      g.getD i 0 ≠ 0 ∧
        ∃ j, j < 81 ∧ j ≠ i ∧ sameUnit i j ∧ g.getD j 0 = g.getD i 0 := by
  unfold hasConflictAt
  by_cases h0 : g.getD i 0 = 0
  · rw [if_pos (by simpa using h0)]
    exact iff_of_false (by simp) (fun hc => hc.1 h0)
  · rw [if_neg (by simpa using h0)]
    simp only [List.any_eq_true, List.mem_range, List.mem_range'_1, Bool.or_eq_true,
      Bool.and_eq_true, Bool.not_eq_true', beq_eq_false_iff_ne, beq_iff_eq, ne_eq]
    constructor
    · rintro (⟨j, hj, ⟨hne, hval⟩ | ⟨hne, hval⟩⟩ | ⟨rr, hrr, cc, hcc, hne, hval⟩)
      · exact ⟨h0, i / 9 * 9 + j, by omega, hne, Or.inl (by unfold rowOf; omega), hval⟩
      · exact ⟨h0, j * 9 + i % 9, by omega, hne,
          Or.inr (Or.inl (by unfold colOf; omega)), hval⟩
      · exact ⟨h0, rr * 9 + cc, by omega, hne,
          Or.inr (Or.inr (by unfold blockOf; omega)), hval⟩
    · rintro ⟨-, j, hj, hne, hsame, hval⟩
      rcases hsame with hr | hc | hb
      · refine Or.inl ⟨j % 9, Nat.mod_lt _ (by norm_num), Or.inl ⟨?_, ?_⟩⟩
        · unfold rowOf at hr; omega
        · unfold rowOf at hr
          have h2 : i / 9 * 9 + j % 9 = j := by omega
          rw [h2]; exact hval
      · refine Or.inl ⟨j / 9, by omega, Or.inr ⟨?_, ?_⟩⟩
        · unfold colOf at hc; omega
        · unfold colOf at hc
          have h2 : j / 9 * 9 + i % 9 = j := by omega
          rw [h2]; exact hval
      · unfold blockOf at hb
        have hjm : j % 9 < 9 := Nat.mod_lt _ (by norm_num)
        refine Or.inr ⟨j / 9, ⟨by omega, by omega⟩, j % 9, ⟨by omega, by omega⟩, ?_, ?_⟩
        · omega
        · have h2 : j / 9 * 9 + j % 9 = j := by omega
          rw [h2]; exact hval

/-- C1, counterexample: the all-ones grid is fully filled and already
inconsistent, yet `solve` returns it unchanged (the search never revisits
filled cells, so `findEmpty` immediately reports completion) instead of
failing, and the returned grid duplicates the value `1` across row 0. -/
theorem C1_counterexample :
    solve (List.replicate 81 1) = some (List.replicate 81 1) ∧
    ¬ okGrid (List.replicate 81 1) := by
  refine ⟨rfl, fun h => ?_⟩
  exact h 0 (by norm_num) 1 (by norm_num) (by omega) (by decide) (by decide) rfl

/-- C1 (amended): when `solve(grid)` returns a grid, every originally
non-zero cell of the input is preserved verbatim, no cell is left empty, and
any two distinct same-row/column/block cells holding equal values were
already both non-zero in the input; hence on an input whose non-zero cells
are conflict-free the result is fully valid.  On an already-inconsistent
grid the search may instead return a grid retaining the input's conflicts. -/
theorem C1_solve_amended (g g' : Grid) (hg : g.length = 81)
    (h : solve g = some g') :
    (∀ i, g.getD i 0 ≠ 0 → g'.getD i 0 = g.getD i 0) ∧
    (∀ i, i < 81 → g'.getD i 0 ≠ 0) ∧
    (∀ i j, i < 81 → j < 81 → i ≠ j → sameUnit i j →
      g'.getD i 0 = g'.getD j 0 → g.getD i 0 ≠ 0 ∧ g.getD j 0 ≠ 0) ∧
    (okGrid g → okGrid g') := by
  obtain ⟨hA, hB, hC, hE, hD⟩ := backtrack_some_spec _ g g' hg h
  refine ⟨hB, hC, hD, ?_⟩
  intro hok i hi j hj hij hsame hnz heq
  obtain ⟨h1, h2⟩ := hD i j hi hj hij hsame heq
  apply hok i hi j hj hij hsame h1
  rw [← hB i h1, ← hB j h2]
  exact heq

/-- Witness for `C1_solve_amended` at the concrete fully-filled reference
solution, on which `solve` succeeds immediately. -/
theorem C1_witness : refSol.length = 81 ∧ (∀ i, i < 81 → refSol.getD i 0 ≠ 0) :=
  ⟨rfl, (C1_solve_amended refSol refSol rfl rfl).2.1⟩

/-- C4, counterexample: on the reference solution, `valid` rejects cell 0
paired with its own value `5` even though `5` occurs at no cell other than
cell 0 in the row, column, or block of cell 0 — the scan of `valid` does not
exclude the queried index itself. -/
theorem C4_counterexample :
    valid refSol 0 5 = false ∧
    (∀ j, j < 81 → j ≠ 0 → sameUnit 0 j → refSol.getD j 0 ≠ 5) := by
  refine ⟨rfl, fun j hj hne hsame => ?_⟩
  have h := okGrid_refSol 0 (by norm_num) j hj (fun he => hne he.symm) hsame (by decide)
  exact fun he => h (by rw [he]; rfl)

/-- C4 (amended): `valid(grid, index, value)` returns `false` exactly when
`value` occurs at some cell — possibly `index` itself — in the same row,
column, or 3×3 block as `index`; consequently on the fully-filled standard
reference solution the validator rejects every cell paired with its own
value, while the conflict set (whose scan does exclude the cell itself) is
empty. -/
theorem C4_valid_amended (g : Grid) (pos val : Nat) (hpos : pos < 81) :
    (valid g pos val = false ↔
      ∃ j, j < 81 ∧ sameUnit pos j ∧ g.getD j 0 = val) ∧
    (∀ i, i < 81 → valid refSol i (refSol.getD i 0) = false) ∧
    conflicts refSol = [] := by
  refine ⟨valid_eq_false_iff g pos val hpos, fun i hi => ?_, rfl⟩
  exact (valid_eq_false_iff refSol i _ hi).mpr ⟨i, hi, Or.inl rfl, rfl⟩

/-- Witness for `C4_valid_amended` at the reference solution, index 0,
value 5. -/
theorem C4_witness :
    (0 : Nat) < 81 ∧
    (valid refSol 0 5 = false ↔
      ∃ j, j < 81 ∧ sameUnit 0 j ∧ refSol.getD j 0 = 5) :=
  ⟨by norm_num, (C4_valid_amended refSol 0 5 (by norm_num)).1⟩

/-- C8: an index is in the conflict set exactly when its cell is non-zero
and some other cell of its row, column, or block holds the same value; in
particular both endpoints of any matching same-unit pair are reported. -/
theorem C8_conflicts_spec (state : Grid) (i : Nat) (hi : i < 81) :
    (i ∈ conflicts state ↔
      state.getD i 0 ≠ 0 ∧
        ∃ j, j < 81 ∧ j ≠ i ∧ sameUnit i j ∧ state.getD j 0 = state.getD i 0) ∧
    (∀ j, j < 81 → j ≠ i → sameUnit i j → state.getD j 0 = state.getD i 0 →
      state.getD i 0 ≠ 0 → i ∈ conflicts state ∧ j ∈ conflicts state) := by
  have hmem : ∀ k, k < 81 → (k ∈ conflicts state ↔ hasConflictAt state k = true) := by
    intro k hk
    unfold conflicts
    rw [List.mem_filter]
    simp [List.mem_range, hk]
  constructor
  · rw [hmem i hi]
    exact hasConflictAt_eq_true_iff state i hi
  · intro j hj hne hsame hval hnz
    constructor
    · rw [hmem i hi, hasConflictAt_eq_true_iff state i hi]
      exact ⟨hnz, j, hj, hne, hsame, hval⟩
    · rw [hmem j hj, hasConflictAt_eq_true_iff state j hj]
      refine ⟨?_, i, hi, fun he => hne he.symm, sameUnit_symm hsame, hval.symm⟩
      rw [hval]
      exact hnz

/-- Witness for `C8_conflicts_spec` on the grid with `5` at cells 0 and 1. -/
theorem C8_witness :
    (0 : Nat) < 81 ∧
    ((0 ∈ conflicts cgrid ↔
      cgrid.getD 0 0 ≠ 0 ∧
        ∃ j, j < 81 ∧ j ≠ 0 ∧ sameUnit 0 j ∧ cgrid.getD j 0 = cgrid.getD 0 0) ∧
    (∀ j, j < 81 → j ≠ 0 → sameUnit 0 j → cgrid.getD j 0 = cgrid.getD 0 0 →
      cgrid.getD 0 0 ≠ 0 → 0 ∈ conflicts cgrid ∧ j ∈ conflicts cgrid)) :=
  ⟨by norm_num, C8_conflicts_spec cgrid 0 (by norm_num)⟩

theorem getD_set {α : Type} (l : List α) (i j : Nat) (a d : α) :
    (l.set i a).getD j d = if i = j ∧ i < l.length then a else l.getD j d := by
  by_cases hij : i = j
  · by_cases hlt : i < l.length
    · rw [if_pos ⟨hij, hlt⟩, ← hij, getD_set_self l a d hlt]
    · rw [if_neg (fun hc => hlt hc.2), List.set_eq_of_length_le (by omega)]
  · rw [if_neg (fun hc => hij hc.1), getD_set_ne l a d hij]

theorem count_set_le (l : List Nat) (i a b : Nat) :
    (l.set i a).count b ≤ l.count b + 1 := by
  induction l generalizing i with
  | nil => simp
  | cons x xs ih =>
    cases i with
    | zero =>
      simp only [List.set_cons_zero, List.count_cons]
      split_ifs <;> omega
    | succ n =>
      simp only [List.set_cons_succ, List.count_cons]
      have := ih n
      split_ifs <;> omega

theorem countZ_le (g : Grid) : countZ g ≤ g.length := List.count_le_length 0 g

theorem countZ_eq_zero_of_full (g : Grid) (hlen : g.length = 81)
    (hfull : ∀ i, i < 81 → g.getD i 0 ≠ 0) : countZ g = 0 := by
  unfold countZ
  rw [List.count_eq_zero]
  intro hmem
  obtain ⟨i, hi, hgi⟩ := List.mem_iff_getElem.mp hmem
  have h0 : g.getD i 0 = 0 := by
    rw [List.getD_eq_getElem?_getD, List.getElem?_eq_getElem hi, hgi]
    rfl
  exact hfull i (by omega) h0

/-- On a grid with no empty cell, `findEmpty` reports completion at once and
`solve` succeeds, returning the grid itself. -/
theorem solve_isSome_of_full (g : Grid) (hlen : g.length = 81)
    (hfull : ∀ i, i < 81 → g.getD i 0 ≠ 0) : (solve g).isSome = true := by
  unfold solve
  rw [countZ_eq_zero_of_full g hlen hfull]
  show (backtrack 1 g).isSome = true
  unfold backtrack
  rw [(findEmpty_eq_none_iff g).mpr hfull]
  rfl

/-- The carver loop's invariant: solvability of the current puzzle, the
removed-count bound on its empty cells, and its length are all preserved. -/
theorem makePuzzleLoop_spec (removals : Nat) :
    ∀ (order : List Nat) (puzzle : Grid) (removed : Nat),
      (solve puzzle).isSome = true → countZ puzzle ≤ removed →
      removed ≤ removals → puzzle.length = 81 →
      (solve (makePuzzleLoop removals order puzzle removed)).isSome = true ∧
      countZ (makePuzzleLoop removals order puzzle removed) ≤ removals ∧
      (makePuzzleLoop removals order puzzle removed).length = 81 := by
  intro order
  induction order with
  | nil =>
    intro puzzle removed h1 h2 h3 h4
    exact ⟨h1, le_trans h2 h3, h4⟩
  | cons idx rest ih =>
    intro puzzle removed h1 h2 h3 h4
    unfold makePuzzleLoop
    by_cases hguard : removals ≤ removed
    · rw [if_pos hguard]
      exact ⟨h1, by omega, h4⟩
    · rw [if_neg hguard]
      cases hs : solve (puzzle.set idx 0) with
      | none => exact ih puzzle removed h1 h2 h3 h4
      | some p' =>
        apply ih
        · rw [hs]; rfl
        · have := count_set_le puzzle idx 0 0
          unfold countZ at *
          omega
        · omega
        · simp [h4]

/-- C3: for every fully-filled input grid and every removal budget and
visiting order, `makePuzzle` returns a puzzle that `solve` completes, with
at most `min(removals, 81)` empty cells — reaching fewer removals than
requested is silently accepted. -/
theorem C3_makePuzzle_spec (solved : Grid) (removals : Nat) (order : List Nat)
    (hlen : solved.length = 81)
    (hfull : ∀ i, i < 81 → solved.getD i 0 ≠ 0) :
    (solve (makePuzzle solved removals order)).isSome = true ∧
    countZ (makePuzzle solved removals order) ≤ min removals 81 := by
  have h := makePuzzleLoop_spec removals order solved 0
    (solve_isSome_of_full solved hlen hfull)
    (by rw [countZ_eq_zero_of_full solved hlen hfull])
    (Nat.zero_le _) hlen
  unfold makePuzzle
  refine ⟨h.1, Nat.le_min.mpr ⟨h.2.1, ?_⟩⟩
  have hle := countZ_le (makePuzzleLoop removals order solved 0)
  omega

/-- Witness for `C3_makePuzzle_spec` on the reference solution, removing
3 cells in the order 0, 1, 2. -/
theorem C3_witness :
    (refSol.length = 81 ∧ ∀ i, i < 81 → refSol.getD i 0 ≠ 0) ∧
    ((solve (makePuzzle refSol 3 [0, 1, 2])).isSome = true ∧
      countZ (makePuzzle refSol 3 [0, 1, 2]) ≤ min 3 81) :=
  ⟨⟨rfl, by decide⟩, C3_makePuzzle_spec refSol 3 [0, 1, 2] rfl (by decide)⟩

/-- The carver's frame property, by loop induction: every cell of the
carved puzzle holds the solved grid's value or `0`. -/
theorem makePuzzle_frame (solved : Grid) (removals : Nat)
    (order : List Nat) (i : Nat) :
    (makePuzzle solved removals order).getD i 0 = solved.getD i 0 ∨
    (makePuzzle solved removals order).getD i 0 = 0 := by
  suffices h : ∀ (ord : List Nat) (puzzle : Grid) (removed : Nat),
      (∀ j, puzzle.getD j 0 = solved.getD j 0 ∨ puzzle.getD j 0 = 0) →
      ∀ j, (makePuzzleLoop removals ord puzzle removed).getD j 0 = solved.getD j 0 ∨
        (makePuzzleLoop removals ord puzzle removed).getD j 0 = 0 by
    exact h order solved 0 (fun j => Or.inl rfl) i
  intro ord
  induction ord with
  | nil =>
    intro puzzle removed hp
    exact hp
  | cons idx rest ih =>
    intro puzzle removed hp
    unfold makePuzzleLoop
    by_cases hguard : removals ≤ removed
    · rw [if_pos hguard]
      exact hp
    · rw [if_neg hguard]
      cases hs : solve (puzzle.set idx 0) with
      | none => exact ih puzzle removed hp
      | some p' =>
        apply ih
        intro j
        rw [getD_set puzzle idx j 0 0]
        split_ifs with hc
        · exact Or.inr rfl
        · exact hp j

/-- C10: carving only erases, never rewrites — every cell of the carved
puzzle holds either the solved grid's value or `0` (the JS carver works on
`solved.slice()`, a copy, which is why the model can take `solved` by
value and the input grid is left untouched). -/
theorem C10_makePuzzle_frame (solved : Grid) (removals : Nat)
    (order : List Nat) (i : Nat) :
    (makePuzzle solved removals order).getD i 0 = solved.getD i 0 ∨
    (makePuzzle solved removals order).getD i 0 = 0 :=
  makePuzzle_frame solved removals order i

theorem checkWin_solution (s : Session) : (checkWin s).solution = s.solution := by
  unfold checkWin; split <;> rfl

theorem checkWin_state (s : Session) : (checkWin s).state = s.state := by
  unfold checkWin; split <;> rfl

theorem checkWin_prefilled (s : Session) : (checkWin s).prefilled = s.prefilled := by
  unfold checkWin; split <;> rfl

theorem checkWin_history (s : Session) : (checkWin s).history = s.history := by
  unfold checkWin; split <;> rfl

theorem checkWin_mistakes (s : Session) : (checkWin s).mistakes = s.mistakes := by
  unfold checkWin; split <;> rfl

theorem inputSet_locked {s : Session} {idx : Nat} (num : Nat)
    (h : s.prefilled.getD idx false = true) : inputSet s idx num = s := by
  unfold inputSet
  rw [if_pos h]

theorem inputSet_free {s : Session} {idx : Nat} (num : Nat)
    (h : s.prefilled.getD idx false = false) :
    (inputSet s idx num).solution = s.solution ∧
    (inputSet s idx num).state = s.state.set idx num ∧
    (inputSet s idx num).prefilled = s.prefilled ∧
    (inputSet s idx num).history =
      (if s.state.getD idx 0 ≠ num then (idx, s.state.getD idx 0) :: s.history
       else s.history) := by
  unfold inputSet
  rw [if_neg (by rw [h]; exact Bool.false_ne_true)]
  refine ⟨?_, ?_, ?_, ?_⟩ <;>
    · dsimp only
      simp only [checkWin_solution, checkWin_state, checkWin_prefilled, checkWin_history]
      split_ifs <;> rfl

theorem numpadSet_locked {s : Session} {idx : Nat} (n : Nat)
    (h : s.prefilled.getD idx false = true) :
    numpadSet s idx n = { s with statusMsg := "Cell is locked" } := by
  unfold numpadSet
  rw [if_pos h]

theorem numpadSet_free {s : Session} {idx : Nat} (n : Nat)
    (h : s.prefilled.getD idx false = false) :
    (numpadSet s idx n).solution = s.solution ∧
    (numpadSet s idx n).state = s.state.set idx n ∧
    (numpadSet s idx n).prefilled = s.prefilled ∧
    (numpadSet s idx n).history = (idx, s.state.getD idx 0) :: s.history := by
  unfold numpadSet
  rw [if_neg (by rw [h]; exact Bool.false_ne_true)]
  refine ⟨?_, ?_, ?_, ?_⟩ <;>
    · dsimp only
      simp only [checkWin_solution, checkWin_state, checkWin_prefilled, checkWin_history]
      split_ifs <;> rfl

theorem keySet_locked {s : Session} {idx : Nat} (n : Nat)
    (h : s.prefilled.getD idx false = true) : keySet s idx n = s := by
  unfold keySet
  rw [if_pos h]

theorem keySet_free {s : Session} {idx : Nat} (n : Nat)
    (h : s.prefilled.getD idx false = false) :
    (keySet s idx n).solution = s.solution ∧
    (keySet s idx n).state = s.state.set idx n ∧
    (keySet s idx n).prefilled = s.prefilled ∧
    (keySet s idx n).history = (idx, s.state.getD idx 0) :: s.history := by
  unfold keySet
  rw [if_neg (by rw [h]; exact Bool.false_ne_true)]
  refine ⟨?_, ?_, ?_, ?_⟩ <;>
    · dsimp only
      simp only [checkWin_solution, checkWin_state, checkWin_prefilled, checkWin_history]
      split_ifs <;> rfl

theorem backspaceClear_locked {s : Session} {idx : Nat}
    (h : s.prefilled.getD idx false = true) : backspaceClear s idx = s := by
  unfold backspaceClear
  rw [if_pos h]

theorem backspaceClear_free {s : Session} {idx : Nat}
    (h : s.prefilled.getD idx false = false) :
    (backspaceClear s idx).solution = s.solution ∧
    (backspaceClear s idx).state = s.state.set idx 0 ∧
    (backspaceClear s idx).prefilled = s.prefilled ∧
    (backspaceClear s idx).history = (idx, s.state.getD idx 0) :: s.history := by
  unfold backspaceClear
  rw [if_neg (by rw [h]; exact Bool.false_ne_true)]
  exact ⟨rfl, rfl, rfl, rfl⟩

theorem undo_nil {s : Session} (h : s.history = []) :
    undo s = { s with statusMsg := "Nothing to undo" } := by
  unfold undo
  rw [h]

theorem undo_cons {s : Session} {idx prev : Nat} {rest : List (Nat × Nat)}
    (h : s.history = (idx, prev) :: rest) :
    undo s = { s with state := s.state.set idx prev, history := rest,
                      statusMsg := "Undo" } := by
  unfold undo
  rw [h]

theorem giveHint_nil {s : Session} (pick : Nat) (h : incorrectList s = []) :
    giveHint s pick = { s with statusMsg := "No hints - puzzle seems complete" } := by
  unfold giveHint
  rw [if_pos (by rw [h]; rfl)]

theorem giveHint_pool {s : Session} (pick : Nat) (h : incorrectList s ≠ []) :
    (giveHint s pick).solution = s.solution ∧
    (giveHint s pick).state =
      s.state.set (hintIdx s pick) (s.solution.getD (hintIdx s pick) 0) ∧
    (giveHint s pick).prefilled = s.prefilled.set (hintIdx s pick) false ∧
    (giveHint s pick).history =
      (hintIdx s pick, s.state.getD (hintIdx s pick) 0) :: s.history ∧
    (giveHint s pick).mistakes = s.mistakes := by
  unfold giveHint
  rw [if_neg (by simpa using h)]
  refine ⟨?_, ?_, ?_, ?_, ?_⟩ <;>
    · dsimp only
      simp only [checkWin_solution, checkWin_state, checkWin_prefilled,
        checkWin_history, checkWin_mistakes]

theorem GivenInv_update {s t : Session} {idx : Nat}
    (hsol : t.solution = s.solution)
    (hst : ∃ v, t.state = s.state.set idx v)
    (hpre : (t.prefilled = s.prefilled ∧ s.prefilled.getD idx false = false) ∨
      t.prefilled = s.prefilled.set idx false)
    (hhist : t.history = s.history ∨ ∃ p, t.history = (idx, p) :: s.history)
    (h : GivenInv s) : GivenInv t := by
  intro i hi
  have key : s.prefilled.getD i false = true ∧ idx ≠ i := by
    rcases hpre with ⟨hp, hfree⟩ | hp
    · rw [hp] at hi
      exact ⟨hi, fun he => by rw [he, hi] at hfree; cases hfree⟩
    · rw [hp, getD_set s.prefilled idx i false false] at hi
      split_ifs at hi with hc
      refine ⟨hi, fun he => hc ⟨he, ?_⟩⟩
      by_contra hlen
      push_neg at hlen
      rw [← he, List.getD_eq_default s.prefilled false (by omega)] at hi
      cases hi
  obtain ⟨hipre, hne⟩ := key
  obtain ⟨h1, h2⟩ := h i hipre
  obtain ⟨v, hv⟩ := hst
  refine ⟨?_, ?_⟩
  · rw [hsol, hv, getD_set_ne s.state v 0 hne]
    exact h1
  · intro e he
    rcases hhist with hh | ⟨p, hh⟩
    · exact h2 e (hh ▸ he)
    · rw [hh] at he
      rcases List.mem_cons.mp he with he1 | he1
      · rw [he1]
        exact hne
      · exact h2 e he1

/-- Every handler preserves the given-cell invariant. -/
theorem GivenInv_step (s : Session) (op : Op) (h : GivenInv s) :
    GivenInv (step s op) := by
  cases op with
  | input idx num =>
    show GivenInv (inputSet s idx num)
    cases hpre : s.prefilled.getD idx false with
    | true =>
      rw [inputSet_locked num hpre]
      exact h
    | false =>
      obtain ⟨hsol, hst, hpf, hh⟩ := inputSet_free num hpre
      refine GivenInv_update hsol ⟨num, hst⟩ (Or.inl ⟨hpf, hpre⟩) ?_ h
      rw [hh]
      split_ifs
      · exact Or.inr ⟨_, rfl⟩
      · exact Or.inl rfl
  | numpad idx n =>
    show GivenInv (numpadSet s idx n)
    cases hpre : s.prefilled.getD idx false with
    | true =>
      rw [numpadSet_locked n hpre]
      exact fun i hi => h i hi
    | false =>
      obtain ⟨hsol, hst, hpf, hh⟩ := numpadSet_free n hpre
      exact GivenInv_update hsol ⟨n, hst⟩ (Or.inl ⟨hpf, hpre⟩) (Or.inr ⟨_, hh⟩) h
  | key idx n =>
    show GivenInv (keySet s idx n)
    cases hpre : s.prefilled.getD idx false with
    | true =>
      rw [keySet_locked n hpre]
      exact h
    | false =>
      obtain ⟨hsol, hst, hpf, hh⟩ := keySet_free n hpre
      exact GivenInv_update hsol ⟨n, hst⟩ (Or.inl ⟨hpf, hpre⟩) (Or.inr ⟨_, hh⟩) h
  | clear idx =>
    show GivenInv (backspaceClear s idx)
    cases hpre : s.prefilled.getD idx false with
    | true =>
      rw [backspaceClear_locked hpre]
      exact h
    | false =>
      obtain ⟨hsol, hst, hpf, hh⟩ := backspaceClear_free hpre
      exact GivenInv_update hsol ⟨0, hst⟩ (Or.inl ⟨hpf, hpre⟩) (Or.inr ⟨_, hh⟩) h
  | hint pick =>
    show GivenInv (giveHint s pick)
    by_cases hinc : incorrectList s = []
    · rw [giveHint_nil pick hinc]
      exact fun i hi => h i hi
    · obtain ⟨hsol, hst, hpf, hh, -⟩ := giveHint_pool pick hinc
      exact GivenInv_update hsol ⟨_, hst⟩ (Or.inr hpf) (Or.inr ⟨_, hh⟩) h
  | undoOp =>
    show GivenInv (undo s)
    cases hh : s.history with
    | nil =>
      rw [undo_nil hh]
      exact fun i hi => h i hi
    | cons e rest =>
      obtain ⟨j, p⟩ := e
      rw [undo_cons hh]
      intro i hi
      obtain ⟨h1, h2⟩ := h i hi
      have hne : j ≠ i := h2 (j, p) (by rw [hh]; exact List.mem_cons_self _ _)
      refine ⟨?_, ?_⟩
      · show (s.state.set j p).getD i 0 = s.solution.getD i 0
        rw [getD_set_ne s.state p 0 hne]
        exact h1
      · intro e1 he1
        exact h2 e1 (by rw [hh]; exact List.mem_cons_of_mem _ he1)

theorem GivenInv_run (s : Session) (ops : List Op) (h : GivenInv s) :
    GivenInv (run s ops) := by
  induction ops generalizing s with
  | nil => exact h
  | cons op rest ih => exact ih (step s op) (GivenInv_step s op h)

theorem getD_map_bne (l : List Nat) (i : Nat)
    (h : (l.map (fun v => v != 0)).getD i false = true) : l.getD i 0 ≠ 0 := by
  by_cases hi : i < l.length
  · rw [List.getD_eq_getElem?_getD, List.getElem?_map, List.getElem?_eq_getElem hi] at h
    rw [List.getD_eq_getElem?_getD, List.getElem?_eq_getElem hi]
    simpa using h
  · rw [List.getD_eq_getElem?_getD, List.getElem?_map,
      List.getElem?_eq_none (by omega)] at h
    cases h

/-- A fresh game satisfies the given-cell invariant: prefilled cells are
exactly the carved puzzle's non-zero cells, which the carver's frame
property pins to the solution value. -/
theorem GivenInv_newPuzzle (solved : Grid) (removals : Nat) (order : List Nat) :
    GivenInv (newPuzzle solved removals order) := by
  intro i hi
  refine ⟨?_, fun e he => absurd he (List.not_mem_nil e)⟩
  have hnz : (makePuzzle solved removals order).getD i 0 ≠ 0 := getD_map_bne _ i hi
  rcases makePuzzle_frame solved removals order i with hc | hc
  · exact hc
  · exact absurd hc hnz


/-- C5: in every state reachable from a fresh game by any sequence of
player actions, each still-prefilled cell shows the solution value, and the
cell `input` handler on a prefilled index is a locked no-op. -/
theorem C5_given_cells (solved : Grid) (removals : Nat) (order : List Nat)
    (ops : List Op) :
    (∀ i, (run (newPuzzle solved removals order) ops).prefilled.getD i false = true →
      (run (newPuzzle solved removals order) ops).state.getD i 0 =
        (run (newPuzzle solved removals order) ops).solution.getD i 0) ∧
    (∀ i num,
      (run (newPuzzle solved removals order) ops).prefilled.getD i false = true →
      inputSet (run (newPuzzle solved removals order) ops) i num =
        run (newPuzzle solved removals order) ops) := by
  have hrun := GivenInv_run _ ops (GivenInv_newPuzzle solved removals order)
  exact ⟨fun i hi => (hrun i hi).1, fun i num hi => inputSet_locked num hi⟩

/-- Witness for `C5_given_cells`: a zero-removal game keeps every cell
prefilled; cell 0 passes the lock test and shows the solution value. -/
theorem C5_witness :
    (run (newPuzzle refSol 0 []) []).prefilled.getD 0 false = true ∧
    (run (newPuzzle refSol 0 []) []).state.getD 0 0 =
      (run (newPuzzle refSol 0 []) []).solution.getD 0 0 :=
  ⟨rfl, (C5_given_cells refSol 0 [] []).1 0 rfl⟩

theorem mem_incorrectList_iff (s : Session) (i : Nat) :
    i ∈ incorrectList s ↔
      i < 81 ∧ (s.state.getD i 0 = 0 ∨ s.state.getD i 0 ≠ s.solution.getD i 0) := by
  unfold incorrectList
  rw [List.mem_filter]
  simp [List.mem_range]

theorem hintIdx_mem {s : Session} (pick : Nat) (h : incorrectList s ≠ []) :
    hintIdx s pick ∈ incorrectList s := by
  unfold hintIdx
  have hlen : 0 < (incorrectList s).length := List.length_pos.mpr h
  have hmod : pick % (incorrectList s).length < (incorrectList s).length :=
    Nat.mod_lt _ hlen
  rw [List.getD_eq_getElem?_getD, List.getElem?_eq_getElem hmod, Option.getD_some]
  exact List.getElem_mem hmod

theorem isSolvedB_eq_true_iff (s : Session) :
    isSolvedB s = true ↔ ∀ i, i < s.state.length →
      s.state.getD i 0 ≠ 0 ∧ s.state.getD i 0 = s.solution.getD i 0 := by
  unfold isSolvedB
  simp [List.all_eq_true, List.mem_range]

/-- C9: with a non-empty pool, `hint` picks a pool index (a cell empty or
wrong), pushes a history entry for it, writes the solution value there and
unlocks it; with an empty pool it mutates nothing; and on a puzzle with a
single empty cell and all others correct it completes the grid. -/
theorem C9_hint_spec (s : Session) (pick : Nat) :
    (incorrectList s ≠ [] →
      hintIdx s pick ∈ incorrectList s ∧
      (s.state.getD (hintIdx s pick) 0 = 0 ∨
        s.state.getD (hintIdx s pick) 0 ≠ s.solution.getD (hintIdx s pick) 0) ∧
      (giveHint s pick).state =
        s.state.set (hintIdx s pick) (s.solution.getD (hintIdx s pick) 0) ∧
      (giveHint s pick).history =
        (hintIdx s pick, s.state.getD (hintIdx s pick) 0) :: s.history ∧
      (giveHint s pick).prefilled = s.prefilled.set (hintIdx s pick) false) ∧
    (incorrectList s = [] →
      (giveHint s pick).state = s.state ∧
      (giveHint s pick).history = s.history ∧
      (giveHint s pick).prefilled = s.prefilled ∧
      (giveHint s pick).mistakes = s.mistakes) ∧
    (∀ e, e < 81 → s.state.length = 81 → s.solution.length = 81 →
      s.state.getD e 0 = 0 → s.solution.getD e 0 ≠ 0 →
      (∀ j, j < 81 → j ≠ e →
        s.state.getD j 0 = s.solution.getD j 0 ∧ s.state.getD j 0 ≠ 0) →
      isSolvedB (giveHint s pick) = true) := by
  refine ⟨fun h => ?_, fun h => ?_, fun e he hsl hsoll h0 hsol0 hothers => ?_⟩
  · obtain ⟨hsolp, hstp, hpfp, hhp, hmp⟩ := giveHint_pool pick h
    have hmem := hintIdx_mem pick h
    have hpred := (mem_incorrectList_iff s _).mp hmem
    exact ⟨hmem, hpred.2, hstp, hhp, hpfp⟩
  · rw [giveHint_nil pick h]
    exact ⟨rfl, rfl, rfl, rfl⟩
  · have hmem_e : e ∈ incorrectList s :=
      (mem_incorrectList_iff s e).mpr ⟨he, Or.inl h0⟩
    have hne : incorrectList s ≠ [] := fun hc => by
      rw [hc] at hmem_e
      cases hmem_e
    have hidx := hintIdx_mem pick hne
    have hidx_pred := (mem_incorrectList_iff s _).mp hidx
    have hidx_eq : hintIdx s pick = e := by
      obtain ⟨hlt, hcase⟩ := hidx_pred
      by_contra hcon
      obtain ⟨hj1, hj2⟩ := hothers _ hlt hcon
      rcases hcase with hc | hc
      · exact hj2 hc
      · exact hc hj1
    obtain ⟨hsolp, hstp, hpfp, hhp, hmp⟩ := giveHint_pool pick hne
    rw [isSolvedB_eq_true_iff]
    intro i hi
    have hi81 : i < 81 := by
      rw [hstp] at hi
      simpa [hsl] using hi
    rw [hstp, hidx_eq, hsolp, getD_set s.state e i (s.solution.getD e 0) 0]
    split_ifs with hc
    · obtain ⟨hce, hclen⟩ := hc
      rw [← hce]
      exact ⟨hsol0, rfl⟩
    · have hie : i ≠ e := by
        intro hcon
        exact hc ⟨hcon.symm, by omega⟩
      obtain ⟨hj1, hj2⟩ := hothers i hi81 hie
      exact ⟨hj2, hj1⟩

/-- Witness for `C9_hint_spec`: the one-cell-missing scenario on `refSol`
with the pick `0`; the hint completes the board. -/
theorem C9_witness :
    incorrectList csess9 ≠ [] ∧ isSolvedB (giveHint csess9 0) = true := by
  constructor
  · intro hc
    have : (0 : Nat) ∈ incorrectList csess9 := by decide
    rw [hc] at this
    cases this
  · refine (C9_hint_spec csess9 0).2.2 0 (by norm_num) (by decide) (by decide) (by decide)
      (by decide) ?_
    intro j hj hne
    show ((refSol.set 0 0).getD j 0 = refSol.getD j 0 ∧ (refSol.set 0 0).getD j 0 ≠ 0)
    rw [getD_set_ne refSol 0 0 (fun hcc => hne hcc.symm)]
    exact ⟨rfl, (by decide : ∀ k, k < 81 → refSol.getD k 0 ≠ 0) j hj⟩

/-- C6, counterexample: in a state whose cell 0 already shows `3` and is not
prefilled, clicking numpad `3` (writing the value already present) pushes a
history entry `(0, 3)` — the numpad path does not test for a changed
value. -/
theorem C6_counterexample :
    csess.state.getD 0 0 = 3 ∧
    csess.prefilled.getD 0 false = false ∧
    csess.history = [] ∧
    (numpadSet csess 0 3).history = [(0, 3)] :=
  ⟨rfl, rfl, rfl, rfl⟩

/-- C6 (amended): on a free cell, the `input` event handler pushes
`HistoryEntry(index, previous)` only when the new value differs from the
old; the numpad click handler, the keyboard digit handler, and the
Backspace/Delete handler push a history entry unconditionally, even when
the written value equals the one already present. -/
theorem C6_history_push (s : Session) (idx num n : Nat)
    (hfree : s.prefilled.getD idx false = false) :
    ((inputSet s idx num).history =
      if s.state.getD idx 0 ≠ num then (idx, s.state.getD idx 0) :: s.history
      else s.history) ∧
    ((numpadSet s idx n).history = (idx, s.state.getD idx 0) :: s.history) ∧
    ((keySet s idx n).history = (idx, s.state.getD idx 0) :: s.history) ∧
    ((backspaceClear s idx).history = (idx, s.state.getD idx 0) :: s.history) :=
  ⟨(inputSet_free num hfree).2.2.2, (numpadSet_free n hfree).2.2.2,
   (keySet_free n hfree).2.2.2, (backspaceClear_free hfree).2.2.2⟩

/-- Witness for `C6_history_push` on the concrete state `csess`. -/
theorem C6_witness :
    csess.prefilled.getD 0 false = false ∧
    ((inputSet csess 0 7).history =
      if csess.state.getD 0 0 ≠ 7 then (0, csess.state.getD 0 0) :: csess.history
      else csess.history) :=
  ⟨rfl, (C6_history_push csess 0 7 7 rfl).1⟩

/-- C7, counterexample: cell 0 is free and shows `2`, and the history holds
an older edit `(0, 1)`.  `setCell(0, 2)` writes the value already present,
so the input handler pushes nothing, and the following `undo()` pops the
older entry instead: cell 0 ends at `1`, not at its pre-edit value `2`. -/
theorem C7_counterexample :
    csess7.prefilled.getD 0 false = false ∧
    csess7.state.getD 0 0 = 2 ∧
    (undo (inputSet csess7 0 2)).state.getD 0 0 = 1 :=
  ⟨rfl, rfl, rfl⟩

/-- C7 (amended): for a free cell `i`, `setCell(i, v)` with `v` different
from the current value followed immediately by `undo()` restores `state[i]`
to its pre-edit value, leaves the mistake counter where the edit put it
(undo never decrements it), and leaves the given mask untouched; `undo()` on
an empty history mutates nothing and reports "Nothing to undo". -/
theorem C7_undo_roundtrip (s : Session) (i v : Nat)
    (hfree : s.prefilled.getD i false = false)
    (hdiff : s.state.getD i 0 ≠ v) :
    ((undo (inputSet s i v)).state.getD i 0 = s.state.getD i 0 ∧
      (undo (inputSet s i v)).mistakes = (inputSet s i v).mistakes ∧
      (undo (inputSet s i v)).prefilled = (inputSet s i v).prefilled) ∧
    (∀ t : Session, t.history = [] →
      (undo t).state = t.state ∧ (undo t).history = [] ∧
      (undo t).mistakes = t.mistakes ∧ (undo t).statusMsg = "Nothing to undo") := by
  constructor
  · obtain ⟨hsol, hst, hpf, hh⟩ := inputSet_free v hfree
    rw [if_pos hdiff] at hh
    rw [undo_cons hh]
    refine ⟨?_, rfl, rfl⟩
    show ((inputSet s i v).state.set i (s.state.getD i 0)).getD i 0 = s.state.getD i 0
    rw [hst, getD_set (s.state.set i v) i i (s.state.getD i 0) 0]
    split_ifs with hc
    · rfl
    · have hlen : s.state.length ≤ i := by
        rcases (not_and_or.mp hc) with hc1 | hc1
        · exact absurd rfl hc1
        · simpa using hc1
      rw [List.set_eq_of_length_le hlen]
  · intro t ht
    rw [undo_nil ht]
    exact ⟨rfl, ht, rfl, rfl⟩

/-- Witness for `C7_undo_roundtrip` on `csess` (cell 0 shows `3`, write `7`). -/
theorem C7_witness :
    (csess.prefilled.getD 0 false = false ∧ csess.state.getD 0 0 ≠ 7) ∧
    ((undo (inputSet csess 0 7)).state.getD 0 0 = csess.state.getD 0 0 ∧
      (undo (inputSet csess 0 7)).mistakes = (inputSet csess 0 7).mistakes ∧
      (undo (inputSet csess 0 7)).prefilled = (inputSet csess 0 7).prefilled) ∧
    (∀ t : Session, t.history = [] →
      (undo t).state = t.state ∧ (undo t).history = [] ∧
      (undo t).mistakes = t.mistakes ∧ (undo t).statusMsg = "Nothing to undo") :=
  ⟨⟨rfl, by decide⟩, C7_undo_roundtrip csess 0 7 rfl (by decide)⟩


theorem getD_replicate_empty (k i : Nat) :
    (List.replicate k (∅ : Finset Nat)).getD i ∅ = ∅ := by
  by_cases hi : i < k
  · rw [List.getD_eq_getElem?_getD, List.getElem?_replicate, if_pos hi]
    rfl
  · rw [List.getD_eq_default _ _ (by simpa using hi)]

theorem getD_replicate_zero (k i : Nat) :
    (List.replicate k (0 : Nat)).getD i 0 = 0 := by
  by_cases hi : i < k
  · rw [List.getD_eq_getElem?_getD, List.getElem?_replicate, if_pos hi]
    rfl
  · rw [List.getD_eq_default _ _ (by simpa using hi)]

/-- The starting state satisfies the invariant at position 0. -/
theorem GenOK_init : GenOK genInit 0 := by
  refine ⟨by simp [genInit], by simp [genInit], by simp [genInit], by simp [genInit],
    fun i _ => ?_, fun i hi => absurd hi (Nat.not_lt_zero i),
    fun i j hi _ _ _ => absurd hi (Nat.not_lt_zero i),
    fun q m _ => ?_⟩
  · exact getD_replicate_zero 81 i
  · constructor
    · intro hb
      exfalso
      unfold genBlocked genInit at hb
      simp only [getD_replicate_empty] at hb
      simp at hb
    · rintro ⟨i, hi, -, -⟩
      exact absurd hi (Nat.not_lt_zero i)

/-- How one placement changes the blocked test: candidate `m` is now blocked
at `q` exactly when it was before, or when it is the placed value and `q`
shares a unit with the placement position. -/
theorem genBlocked_stAdd (st : GenState) (pos n : Nat) (hok : GenOK st pos)
    (hpos : pos < 81) (q m : Nat) :
    genBlocked (stAdd st pos n) q m = true ↔
      (m = n ∧ sameUnit pos q) ∨ genBlocked st q m = true := by
  have hrow : m ∈ ((st.rows.set (pos / 9)
        (insert n (st.rows.getD (pos / 9) ∅))).getD (q / 9) ∅) ↔
      (m = n ∧ q / 9 = pos / 9) ∨ m ∈ st.rows.getD (q / 9) ∅ := by
    by_cases h : q / 9 = pos / 9
    · rw [h, getD_set_self st.rows _ ∅ (by rw [hok.rlen]; omega)]
      simp [h]
    · rw [getD_set_ne st.rows _ ∅ (fun he => h he.symm)]
      simp [h]
  have hcol : m ∈ ((st.cols.set (pos % 9)
        (insert n (st.cols.getD (pos % 9) ∅))).getD (q % 9) ∅) ↔
      (m = n ∧ q % 9 = pos % 9) ∨ m ∈ st.cols.getD (q % 9) ∅ := by
    by_cases h : q % 9 = pos % 9
    · rw [h, getD_set_self st.cols _ ∅ (by rw [hok.clen]; omega)]
      simp [h]
    · rw [getD_set_ne st.cols _ ∅ (fun he => h he.symm)]
      simp [h]
  have hblk : m ∈ ((st.blocks.set (blockIndex (pos / 9) (pos % 9))
        (insert n (st.blocks.getD (blockIndex (pos / 9) (pos % 9)) ∅))).getD
          (blockIndex (q / 9) (q % 9)) ∅) ↔
      (m = n ∧ blockIndex (q / 9) (q % 9) = blockIndex (pos / 9) (pos % 9)) ∨
        m ∈ st.blocks.getD (blockIndex (q / 9) (q % 9)) ∅ := by
    by_cases h : blockIndex (q / 9) (q % 9) = blockIndex (pos / 9) (pos % 9)
    · rw [h, getD_set_self st.blocks _ ∅ (by rw [hok.blen]; unfold blockIndex; omega)]
      simp [h]
    · rw [getD_set_ne st.blocks _ ∅ (fun he => h he.symm)]
      simp [h]
  unfold genBlocked stAdd sameUnit rowOf colOf blockOf
  simp only [Bool.or_eq_true, decide_eq_true_eq]
  unfold blockIndex at hblk ⊢
  constructor
  · rintro ((h1 | h1) | h1)
    · rcases hrow.mp h1 with ⟨he, hu⟩ | hold
      · exact Or.inl ⟨he, Or.inl hu.symm⟩
      · exact Or.inr (Or.inl (Or.inl hold))
    · rcases hcol.mp h1 with ⟨he, hu⟩ | hold
      · exact Or.inl ⟨he, Or.inr (Or.inl hu.symm)⟩
      · exact Or.inr (Or.inl (Or.inr hold))
    · rcases hblk.mp h1 with ⟨he, hu⟩ | hold
      · exact Or.inl ⟨he, Or.inr (Or.inr hu.symm)⟩
      · exact Or.inr (Or.inr hold)
  · rintro (⟨he, hu | hu | hu⟩ | ((h2 | h2) | h2))
    · exact Or.inl (Or.inl (hrow.mpr (Or.inl ⟨he, hu.symm⟩)))
    · exact Or.inl (Or.inr (hcol.mpr (Or.inl ⟨he, hu.symm⟩)))
    · exact Or.inr (hblk.mpr (Or.inl ⟨he, hu.symm⟩))
    · exact Or.inl (Or.inl (hrow.mpr (Or.inr h2)))
    · exact Or.inl (Or.inr (hcol.mpr (Or.inr h2)))
    · exact Or.inr (hblk.mpr (Or.inr h2))

/-- One unblocked placement preserves the generator invariant. -/
theorem GenOK_stAdd {st : GenState} {pos n : Nat} (hok : GenOK st pos)
    (hpos : pos < 81) (hn1 : 1 ≤ n) (hn9 : n ≤ 9)
    (hb : genBlocked st pos n = false) : GenOK (stAdd st pos n) (pos + 1) := by
  have hposlen : pos < st.grid.length := by rw [hok.glen]; omega
  have hgset : ∀ i, i ≠ pos → (stAdd st pos n).grid.getD i 0 = st.grid.getD i 0 :=
    fun i hi => getD_set_ne st.grid n 0 (fun he => hi he.symm)
  have hgpos : (stAdd st pos n).grid.getD pos 0 = n := getD_set_self st.grid n 0 hposlen
  refine ⟨by simp [stAdd, hok.glen], by simp [stAdd, hok.rlen],
    by simp [stAdd, hok.clen], by simp [stAdd, hok.blen], ?_, ?_, ?_, ?_⟩
  · intro i hi
    rw [hgset i (by omega)]
    exact hok.zero i (by omega)
  · intro i hi
    by_cases hip : i = pos
    · rw [hip, hgpos]
      omega
    · rw [hgset i hip]
      exact hok.filled i (by omega)
  · intro i j hi hj hne hsame
    by_cases hip : i = pos
    · subst hip
      have hjp : j ≠ i := fun he => hne he.symm
      rw [hgpos, hgset j (fun he => hne he.symm)]
      intro he
      have hblocked : genBlocked st i n = true :=
        (hok.blocked i n hpos).mpr ⟨j, by omega, sameUnit_symm hsame, he.symm⟩
      rw [hblocked] at hb
      cases hb
    · by_cases hjp : j = pos
      · subst hjp
        rw [hgpos, hgset i hip]
        intro he
        have hblocked : genBlocked st j n = true :=
          (hok.blocked j n hpos).mpr ⟨i, by omega, hsame, he⟩
        rw [hblocked] at hb
        cases hb
      · rw [hgset i hip, hgset j hjp]
        exact hok.distinct i j (by omega) (by omega) hne hsame
  · intro q m hq
    rw [genBlocked_stAdd st pos n hok hpos q m]
    constructor
    · rintro (⟨he, hu⟩ | hold)
      · exact ⟨pos, by omega, hu, by rw [hgpos, he]⟩
      · obtain ⟨i, hi, hs, hg⟩ := (hok.blocked q m hq).mp hold
        exact ⟨i, by omega, hs, by rw [hgset i (by omega)]; exact hg⟩
    · rintro ⟨i, hi, hs, hg⟩
      by_cases hip : i = pos
      · subst hip
        rw [hgpos] at hg
        exact Or.inl ⟨hg.symm, hs⟩
      · rw [hgset i hip] at hg
        exact Or.inr ((hok.blocked q m hq).mpr ⟨i, by omega, hs, hg⟩)

/-- A state passing the invariant at position 81 is a solved grid. -/
theorem solvedGrid_of_GenOK {st : GenState} (hok : GenOK st 81) :
    solvedGrid st.grid :=
  ⟨hok.glen, fun i hi => hok.filled i hi,
   fun i hi j hj hne hs _ => hok.distinct i j hi hj hne hs⟩

/-- Soundness of the candidate loop, given soundness of the recursive
search one level down. -/
theorem tryNums_sound (rand : Nat → List Nat) (fuel : Nat)
    (ih : ∀ pos k st g k2, pos ≤ 81 → GenOK st pos →
      placeG rand fuel k pos st = (some g, k2) → solvedGrid g) :
    ∀ (ns : List Nat) (pos k : Nat) (st : GenState) (g : Grid) (k2 : Nat),
      pos < 81 → GenOK st pos → (∀ n ∈ ns, 1 ≤ n ∧ n ≤ 9) →
      tryNums rand fuel ns k pos st = (some g, k2) → solvedGrid g := by
  intro ns
  induction ns with
  | nil =>
    intro pos k st g k2 _ _ _ h
    simp [tryNums] at h
  | cons n ns ihn =>
    intro pos k st g k2 hpos hok hns h
    unfold tryNums at h
    by_cases hb : genBlocked st pos n = true
    · rw [if_pos hb] at h
      exact ihn pos k st g k2 hpos hok (fun m hm => hns m (List.mem_cons_of_mem _ hm)) h
    · rw [if_neg hb] at h
      obtain ⟨hn1, hn9⟩ := hns n (List.mem_cons_self _ _)
      cases hp : placeG rand fuel k (pos + 1) (stAdd st pos n) with
      | mk o kk =>
        rw [hp] at h
        cases o with
        | some g2 =>
          cases h
          exact ih (pos + 1) k (stAdd st pos n) _ _ (by omega)
            (GenOK_stAdd hok hpos hn1 hn9 (by simpa using hb)) hp
        | none =>
          exact ihn pos kk st g k2 hpos hok
            (fun m hm => hns m (List.mem_cons_of_mem _ hm)) h

/-- Soundness of `place`: any grid it returns is a solved grid. -/
theorem placeG_sound (rand : Nat → List Nat)
    (hrand : ∀ k, (rand k).Perm [1, 2, 3, 4, 5, 6, 7, 8, 9]) :
    ∀ (fuel pos k : Nat) (st : GenState) (g : Grid) (k2 : Nat),
      pos ≤ 81 → GenOK st pos →
      placeG rand fuel k pos st = (some g, k2) → solvedGrid g := by
  intro fuel
  induction fuel with
  | zero =>
    intro pos k st g k2 _ _ h
    simp [placeG] at h
  | succ fuel ih =>
    intro pos k st g k2 hpos hok h
    unfold placeG at h
    by_cases h81 : pos = 81
    · rw [if_pos h81] at h
      cases h
      exact solvedGrid_of_GenOK (h81 ▸ hok)
    · rw [if_neg h81] at h
      have hcand : ∀ m ∈ rand k, 1 ≤ m ∧ m ≤ 9 := by
        intro m hm
        have hmem := (hrand k).mem_iff.mp hm
        simp at hmem
        omega
      exact tryNums_sound rand fuel (fun p kk stt gg kk2 hp hko hh => ih p kk stt gg kk2 hp hko hh)
        (rand k) pos (k + 1) st g k2 (by omega) hok hcand h

/-- Completeness of the candidate loop: if the remaining candidates contain
the reference completion's value at `pos`, the loop succeeds. -/
theorem tryNums_complete (rand : Nat → List Nat) (fuel : Nat) (s : Grid)
    (hs : solvedGrid s)
    (ih : ∀ pos k st, 82 - pos ≤ fuel → pos ≤ 81 → GenOK st pos →
      (∀ i, i < pos → st.grid.getD i 0 = s.getD i 0) →
      (placeG rand fuel k pos st).1.isSome = true) :
    ∀ (ns : List Nat) (pos k : Nat) (st : GenState),
      pos < 81 → 81 - pos ≤ fuel → GenOK st pos →
      (∀ i, i < pos → st.grid.getD i 0 = s.getD i 0) →
      s.getD pos 0 ∈ ns →
      (tryNums rand fuel ns k pos st).1.isSome = true := by
  intro ns
  induction ns with
  | nil =>
    intro pos k st _ _ _ _ hmem
    cases hmem
  | cons n ns ihn =>
    intro pos k st hpos hfuel hok hext hmem
    unfold tryNums
    by_cases hb : genBlocked st pos n = true
    · rw [if_pos hb]
      have hne : n ≠ s.getD pos 0 := by
        intro he
        obtain ⟨i, hi, hsame, hgi⟩ := (hok.blocked pos n hpos).mp hb
        have hsi : s.getD i 0 = n := by rw [← hext i hi]; exact hgi
        have hnz : s.getD i 0 ≠ 0 := by
          have := hs.2.1 i (by omega)
          omega
        have hd := hs.2.2 i (by omega) pos hpos (by omega) hsame hnz
        rw [hsi, he] at hd
        exact hd rfl
      refine ihn pos k st hpos hfuel hok hext ?_
      rcases List.mem_cons.mp hmem with h1 | h1
      · exact absurd h1.symm hne
      · exact h1
    · rw [if_neg hb]
      cases hp : placeG rand fuel k (pos + 1) (stAdd st pos n) with
      | mk o kk =>
        cases o with
        | some g2 => rfl
        | none =>
          by_cases he : n = s.getD pos 0
          · exfalso
            have hn19 : 1 ≤ n ∧ n ≤ 9 := by
              have := hs.2.1 pos (by omega)
              omega
            have hok2 : GenOK (stAdd st pos n) (pos + 1) :=
              GenOK_stAdd hok hpos hn19.1 hn19.2 (by simpa using hb)
            have hext2 : ∀ i, i < pos + 1 → (stAdd st pos n).grid.getD i 0 = s.getD i 0 := by
              intro i hi
              by_cases hip : i = pos
              · have hgp : (stAdd st pos n).grid.getD pos 0 = n :=
                  getD_set_self st.grid n 0 (by rw [hok.glen]; omega)
                rw [hip, hgp]
                exact he
              · have hgi : (stAdd st pos n).grid.getD i 0 = st.grid.getD i 0 :=
                  getD_set_ne st.grid n 0 (fun hee => hip hee.symm)
                rw [hgi]
                exact hext i (by omega)
            have hsome := ih (pos + 1) k (stAdd st pos n) (by omega) (by omega) hok2 hext2
            rw [hp] at hsome
            simp at hsome
          · refine ihn pos kk st hpos hfuel hok hext ?_
            rcases List.mem_cons.mp hmem with h1 | h1
            · exact absurd h1.symm he
            · exact h1

/-- Completeness of `place`: from an invariant-respecting state that agrees
with a solved grid on the scanned prefix, and enough fuel, the search
succeeds. -/
theorem placeG_complete (rand : Nat → List Nat) (s : Grid) (hs : solvedGrid s)
    (hrand : ∀ k, (rand k).Perm [1, 2, 3, 4, 5, 6, 7, 8, 9]) :
    ∀ (fuel pos k : Nat) (st : GenState), 82 - pos ≤ fuel → pos ≤ 81 →
      GenOK st pos → (∀ i, i < pos → st.grid.getD i 0 = s.getD i 0) →
      (placeG rand fuel k pos st).1.isSome = true := by
  intro fuel
  induction fuel with
  | zero =>
    intro pos k st hf hpos _ _
    omega
  | succ fuel ih =>
    intro pos k st hf hpos hok hext
    unfold placeG
    by_cases h81 : pos = 81
    · rw [if_pos h81]
      rfl
    · rw [if_neg h81]
      have h19 : s.getD pos 0 ∈ [1, 2, 3, 4, 5, 6, 7, 8, 9] := by
        have hb9 := hs.2.1 pos (by omega)
        simp only [List.mem_cons, List.not_mem_nil, or_false]
        omega
      exact tryNums_complete rand fuel s hs
        (fun p kk stt hfp hpp hko hep => ih p kk stt (by omega) hpp hko hep)
        (rand k) pos (k + 1) st (by omega) (by omega) hok hext
        ((hrand k).mem_iff.mpr h19)

/-- Nine pairwise-distinct digits of `1..9` are a permutation of `1..9`. -/
theorem perm_digits (l : List Nat) (hlen : l.length = 9) (hnodup : l.Nodup)
    (hsub : l ⊆ [1, 2, 3, 4, 5, 6, 7, 8, 9]) :
    l.Perm [1, 2, 3, 4, 5, 6, 7, 8, 9] :=
  (List.Nodup.subperm hnodup hsub).perm_of_length_le (by rw [hlen]; rfl)

/-- Each row, column and block of a solved grid is a permutation of 1..9. -/
theorem units_perm (g : Grid) (hg : solvedGrid g) :
    ∀ u, u < 9 →
      (rowVals g u).Perm [1, 2, 3, 4, 5, 6, 7, 8, 9] ∧
      (colVals g u).Perm [1, 2, 3, 4, 5, 6, 7, 8, 9] ∧
      (blockVals g u).Perm [1, 2, 3, 4, 5, 6, 7, 8, 9] := by
  obtain ⟨hlen, hcells, hdist⟩ := hg
  intro u hu
  refine ⟨perm_digits _ (by simp [rowVals]) ?_ ?_,
    perm_digits _ (by simp [colVals]) ?_ ?_,
    perm_digits _ (by simp [blockVals]) ?_ ?_⟩
  · apply List.Nodup.map_on ?_ (List.nodup_range 9)
    intro x hx y hy hf
    simp only [List.mem_range] at hx hy
    by_contra hxy
    exact hdist (u * 9 + x) (by omega) (u * 9 + y) (by omega) (by omega)
      (Or.inl (by unfold rowOf; omega))
      (by have := hcells (u * 9 + x) (by omega); omega) hf
  · intro v hv
    simp only [rowVals, List.mem_map, List.mem_range] at hv
    obtain ⟨c, hc, hcv⟩ := hv
    have hbv := hcells (u * 9 + c) (by omega)
    simp only [List.mem_cons, List.not_mem_nil, or_false]
    omega
  · apply List.Nodup.map_on ?_ (List.nodup_range 9)
    intro x hx y hy hf
    simp only [List.mem_range] at hx hy
    by_contra hxy
    exact hdist (x * 9 + u) (by omega) (y * 9 + u) (by omega) (by omega)
      (Or.inr (Or.inl (by unfold colOf; omega)))
      (by have := hcells (x * 9 + u) (by omega); omega) hf
  · intro v hv
    simp only [colVals, List.mem_map, List.mem_range] at hv
    obtain ⟨r, hr, hrv⟩ := hv
    have hbv := hcells (r * 9 + u) (by omega)
    simp only [List.mem_cons, List.not_mem_nil, or_false]
    omega
  · apply List.Nodup.map_on ?_ (List.nodup_range 9)
    intro x hx y hy hf
    simp only [List.mem_range] at hx hy
    by_contra hxy
    exact hdist ((u / 3 * 3 + x / 3) * 9 + (u % 3 * 3 + x % 3)) (by omega)
      ((u / 3 * 3 + y / 3) * 9 + (u % 3 * 3 + y % 3)) (by omega) (by omega)
      (Or.inr (Or.inr (by unfold blockOf; omega)))
      (by have := hcells ((u / 3 * 3 + x / 3) * 9 + (u % 3 * 3 + x % 3)) (by omega); omega)
      hf
  · intro v hv
    simp only [blockVals, List.mem_map, List.mem_range] at hv
    obtain ⟨t, ht, htv⟩ := hv
    have hbv := hcells ((u / 3 * 3 + t / 3) * 9 + (u % 3 * 3 + t % 3)) (by omega)
    simp only [List.mem_cons, List.not_mem_nil, or_false]
    omega

/-- For every shuffle stream made of permutations of `1..9`, the generator's
search from the empty grid succeeds and its result is a solved grid. -/
theorem generateSolved_solvedGrid (rand : Nat → List Nat)
    (hrand : ∀ k, (rand k).Perm [1, 2, 3, 4, 5, 6, 7, 8, 9]) :
    solvedGrid (generateSolved rand) := by
  have hsref : solvedGrid refSol := ⟨rfl, by decide, okGrid_refSol⟩
  have hsome := placeG_complete rand refSol hsref hrand 82 0 0 genInit
    (by omega) (by omega) GenOK_init (fun i hi => absurd hi (Nat.not_lt_zero i))
  unfold generateSolved
  cases hp : placeG rand 82 0 0 genInit with
  | mk o k2 =>
    cases o with
    | none =>
      rw [hp] at hsome
      simp at hsome
    | some g =>
      exact placeG_sound rand hrand 82 0 0 genInit g k2 (by omega) GenOK_init hp

/-- C2: whenever every `shuffle([1..9])` outcome is a permutation of `1..9`
(which Fisher–Yates guarantees), `generateSolved()` always succeeds: the
grid it returns is completely filled and every row, every column, and every
3×3 block is a permutation of `1..9`, on every call — the search from the
empty grid can always reach the known full valid assignment `refSol`. -/
theorem C2_generateSolved (rand : Nat → List Nat)
    (hrand : ∀ k, (rand k).Perm [1, 2, 3, 4, 5, 6, 7, 8, 9]) :
    (∀ i, i < 81 → (generateSolved rand).getD i 0 ≠ 0) ∧
    ∀ u, u < 9 →
      (rowVals (generateSolved rand) u).Perm [1, 2, 3, 4, 5, 6, 7, 8, 9] ∧
      (colVals (generateSolved rand) u).Perm [1, 2, 3, 4, 5, 6, 7, 8, 9] ∧
      (blockVals (generateSolved rand) u).Perm [1, 2, 3, 4, 5, 6, 7, 8, 9] := by
  have hg := generateSolved_solvedGrid rand hrand
  refine ⟨fun i hi => ?_, units_perm _ hg⟩
  have hbv := hg.2.1 i hi
  omega

/-- Witness for `C2_generateSolved` with the constant identity shuffle. -/
theorem C2_witness :
    (∀ k : Nat, ((fun _ : Nat => [1, 2, 3, 4, 5, 6, 7, 8, 9]) k).Perm
      [1, 2, 3, 4, 5, 6, 7, 8, 9]) ∧
    (∀ i, i < 81 →
      (generateSolved (fun _ => [1, 2, 3, 4, 5, 6, 7, 8, 9])).getD i 0 ≠ 0) :=
  ⟨fun _ => List.Perm.refl _,
   (C2_generateSolved (fun _ => [1, 2, 3, 4, 5, 6, 7, 8, 9])
     (fun _ => List.Perm.refl _)).1⟩


end Sudoku
